import Mathlib

/-!
Verification of `quickselect.py`: an in-place quickselect-based `median`.

The Python module is shallowly embedded over `List ℚ`:
* Python's mutable `deque` buffer becomes an explicitly threaded `List ℚ`;
  every in-place tuple swap `q[a], q[b] = q[b], q[a]` becomes `swap`.
* `random.randint(left, right)` is an injected pivot-index provider (a stream
  `ps : List Nat`); entry `m` yields the in-range pivot
  `left + m % (right - left + 1)`, and every pivot in `[left, right]` is
  reachable this way, so quantifying over streams quantifies over all pivot
  choices.  `random.randint(a, b)` with `a > b` raises `ValueError`, modelled
  by the `Except` error branch.
* Python exceptions become `Except PyError`: the module's
  `StatisticsError(ValueError)` and the plain `ValueError` from `randint`.
* Numbers are `ℚ`, which has the strict total order, addition and exact
  division by 2 that the module needs; Python's `/` on the test data used
  here is exact.
-/

/-- Error kinds of the Python module: its own `StatisticsError` (a `ValueError`
subclass) and the plain `ValueError` that `random.randint` raises on an empty
range. -/
inductive PyError where
  | statisticsError (msg : String)
  | valueError (msg : String)
deriving DecidableEq, Repr

/-- The Python parallel assignment `q[i], q[j] = q[j], q[i]`: both right-hand
values are read first, then stored. -/
def swap (q : List ℚ) (i j : Nat) : List ℚ :=
  let a := q.getD i 0
  let b := q.getD j 0
  (q.set i b).set j a

/-- The scan loop of `partition` (quickselect.py lines 17-20).  The source
iterates `for i, value in enumerate(q[j] for j in range(left, right))`: the
generator reads `q[j]` lazily (after the swaps of earlier iterations), `j`
runs over `left .. right-1`, while `enumerate` counts `i` from `0` — so the
swap target is `q[i]` with `i = j - left`, not `q[j]`.  Here the list argument
is `List.range (right - left)` (the values of `i`), the read index is
`left + i` (the value of `j`), and the swap is at `store` and `i`, exactly as
in the source. -/
def partitionLoop (pivotValue : ℚ) (left : Nat) :
    List Nat → Nat → List ℚ → Nat × List ℚ
  | [], store, q => (store, q)
  | i :: is, store, q =>
      let value := q.getD (left + i) 0
      if value < pivotValue then
        partitionLoop pivotValue left is (store + 1) (swap q store i)
      else
        partitionLoop pivotValue left is store q

/-- `partition(q, left, right, pivot_index)` from quickselect.py lines 11-22:
read the pivot value, swap the pivot to `right`, run the scan loop starting
with `store_index = left`, swap the pivot into the final store index, and
return the store index together with the mutated buffer. -/
def partition (q : List ℚ) (left right pivotIndex : Nat) : Nat × List ℚ :=
  let pivotValue := q.getD pivotIndex 0
  let q1 := swap q pivotIndex right
  let res := partitionLoop pivotValue left (List.range (right - left)) left q1
  (res.1, swap res.2 right res.1)

theorem swap_length (q : List ℚ) (i j : Nat) : (swap q i j).length = q.length := by
  simp [swap]

theorem partitionLoop_length (pivotValue : ℚ) (left : Nat) (is : List Nat)
    (store : Nat) (q : List ℚ) :
    (partitionLoop pivotValue left is store q).2.length = q.length := by
  induction is generalizing store q with
  | nil => rfl
  | cons i is ih =>
      simp only [partitionLoop]
      split
      · rw [ih, swap_length]
      · rw [ih]

theorem partitionLoop_store_ge (pivotValue : ℚ) (left : Nat) (is : List Nat)
    (store : Nat) (q : List ℚ) :
    store ≤ (partitionLoop pivotValue left is store q).1 := by
  induction is generalizing store q with
  | nil => exact Nat.le_refl _
  | cons i is ih =>
      simp only [partitionLoop]
      split
      · exact Nat.le_trans (Nat.le_succ _) (ih _ _)
      · exact ih _ _

theorem partitionLoop_store_le (pivotValue : ℚ) (left : Nat) (is : List Nat)
    (store : Nat) (q : List ℚ) :
    (partitionLoop pivotValue left is store q).1 ≤ store + is.length := by
  induction is generalizing store q with
  | nil => exact Nat.le_refl _
  | cons i is ih =>
      simp only [partitionLoop, List.length_cons]
      split
      · have h := ih (store + 1) (swap q store i)
        omega
      · have h := ih store q
        omega

theorem partition_length (q : List ℚ) (left right pivotIndex : Nat) :
    (partition q left right pivotIndex).2.length = q.length := by
  simp [partition, swap_length, partitionLoop_length]

theorem partition_store_ge (q : List ℚ) (left right pivotIndex : Nat) :
    left ≤ (partition q left right pivotIndex).1 := by
  simpa [partition] using
    partitionLoop_store_ge (q.getD pivotIndex 0) left
      (List.range (right - left)) left (swap q pivotIndex right)

theorem partition_store_le (q : List ℚ) (left right pivotIndex : Nat)
    (h : left ≤ right) : (partition q left right pivotIndex).1 ≤ right := by
  have := partitionLoop_store_le (q.getD pivotIndex 0) left
    (List.range (right - left)) left (swap q pivotIndex right)
  simp only [partition]
  calc (partitionLoop (q.getD pivotIndex 0) left (List.range (right - left))
          left (swap q pivotIndex right)).1
      ≤ left + (List.range (right - left)).length := this
    _ = right := by rw [List.length_range]; omega

/-- `quickselect(l, left, right, k)` from quickselect.py lines 25-39, at the
deque level (the recursive calls, which pass the deque itself and hence skip
the `deque(l)` copy).  Returns the selected value together with the final
buffer state.  `ps` is the injected pivot stream; the `right < left` branch
models the `ValueError` that `random.randint(left, right)` raises on an empty
range (the source checks `left == right` only). -/
def quickselectD (q : List ℚ) (left right k : Nat) (ps : List Nat) :
    Except PyError (ℚ × List ℚ) :=
  if hlr : left = right then .ok (q.getD left 0, q)
  else if hrl : right < left then
    .error (.valueError "empty range for randrange() (1, 0, 0)")
  else
    let p := left + (ps.headD 0) % (right - left + 1)
    let pr := partition q left right p
    if k = pr.1 then .ok (pr.2.getD k 0, pr.2)
    else if hk : k < pr.1 then
      quickselectD pr.2 left (pr.1 - 1) k ps.tail
    else
      quickselectD pr.2 (pr.1 + 1) right k ps.tail
termination_by right - left
decreasing_by
  · have h1 : left ≤ right := Nat.le_of_not_lt hrl
    have h2 : (partition q left right
        (left + (ps.headD 0) % (right - left + 1))).1 ≤ right :=
      partition_store_le _ _ _ _ h1
    have h4 : pr.1 = (partition q left right
        (left + (ps.headD 0) % (right - left + 1))).1 := rfl
    omega
  · have h3 : left ≤ (partition q left right
        (left + (ps.headD 0) % (right - left + 1))).1 :=
      partition_store_ge _ _ _ _
    have h4 : pr.1 = (partition q left right
        (left + (ps.headD 0) % (right - left + 1))).1 := rfl
    omega

/-- `quickselect` as called with a non-deque argument (quickselect.py lines
28-30): the input is copied into a fresh deque, the recursion runs on that
copy, and only the selected value is returned (the copy is discarded). -/
def quickselect (l : List ℚ) (left right k : Nat) (ps : List Nat) :
    Except PyError ℚ :=
  Except.map Prod.fst (quickselectD l left right k ps)

/-- `median(data)` from quickselect.py lines 41-50.  `data = list(data)` makes
a private copy; an empty copy raises `StatisticsError`; odd length selects
rank `n / 2`; even length averages ranks `n / 2 - 1` and `n / 2` with the
element type's `/ 2`.  Each `quickselect` call receives the list `data`, so
each makes its own fresh deque copy.  `ps1`, `ps2` are the pivot streams
consumed by the first and second call. -/
def median (data : List ℚ) (ps1 ps2 : List Nat) : Except PyError ℚ :=
  let n := data.length
  if n = 0 then .error (.statisticsError "No median for empty data")
  else if n % 2 = 1 then quickselect data 0 (n - 1) (n / 2) ps1
  else
    let i := n / 2
    do
      let a ← quickselect data 0 (n - 1) (i - 1) ps1
      let b ← quickselect data 0 (n - 1) i ps2
      pure ((a + b) / 2)

/-- Follows the spec's words (§4.3 step 4) for comparison with `median`: the
second `select` call runs "on the *already-partially-rearranged* buffer from
the previous call", i.e. the two calls share one working buffer.  Used only to
contrast with `median`, whose two calls each copy the list afresh. -/
def medianShared (data : List ℚ) (ps1 ps2 : List Nat) : Except PyError ℚ :=
  let n := data.length
  if n = 0 then .error (.statisticsError "No median for empty data")
  else if n % 2 = 1 then quickselect data 0 (n - 1) (n / 2) ps1
  else
    let i := n / 2
    do
      let ab ← quickselectD data 0 (n - 1) (i - 1) ps1
      let bb ← quickselectD ab.2 0 (n - 1) i ps2
      pure ((ab.1 + bb.1) / 2)

/-- Insertion step of the reference sort used by `medianSpec`. -/
def insertSorted (x : ℚ) : List ℚ → List ℚ
  | [] => [x]
  | y :: ys => if x ≤ y then x :: y :: ys else y :: insertSorted x ys

/-- Reference insertion sort used by `medianSpec`. -/
def sortList : List ℚ → List ℚ
  | [] => []
  | x :: xs => insertSorted x (sortList xs)

/-- Reference definition, from the spec's words (§8, §4.3): the middle element
of the sorted sequence for odd length, the average of the two central
elements for even length. -/
def medianSpec (data : List ℚ) : Option ℚ :=
  let n := data.length
  if n = 0 then none
  else if n % 2 = 1 then some ((sortList data).getD (n / 2) 0)
  else some (((sortList data).getD (n / 2 - 1) 0 + (sortList data).getD (n / 2) 0) / 2)

/-- Access checker mirroring `partitionLoop` step for step against a buffer
length `n`: records that each read index `left + i` (the source's `q[j]`) and
each swap target (`store` and `i`) is in bounds. -/
def partitionLoopOK (pivotValue : ℚ) (left n : Nat) :
    List Nat → Nat → List ℚ → Bool
  | [], _, _ => true
  | i :: is, store, q =>
      let value := q.getD (left + i) 0
      decide (left + i < n) &&
      (if value < pivotValue then
        decide (store < n) && decide (i < n) &&
        partitionLoopOK pivotValue left n is (store + 1) (swap q store i)
      else partitionLoopOK pivotValue left n is store q)

/-- Access checker for one `partition` call: the pivot read/swap at
`pivotIndex` and `right`, every loop access, and the final swap at `right`
and the store index are in bounds, and the returned store index lies in
`[left, right]`. -/
def partitionOK (q : List ℚ) (left right pivotIndex : Nat) : Bool :=
  let n := q.length
  let pivotValue := q.getD pivotIndex 0
  let q1 := swap q pivotIndex right
  let res := partitionLoop pivotValue left (List.range (right - left)) left q1
  decide (pivotIndex < n) && decide (right < n) &&
  partitionLoopOK pivotValue left n (List.range (right - left)) left q1 &&
  decide (left ≤ res.1) && decide (res.1 ≤ right)

/-- Access checker mirroring the recursion of `quickselectD`: the base-case
read `q[left]`, every `partition` call's accesses and store index, and the
read `q[k]` on a pivot hit are all checked, on the buffer state each call
actually receives. -/
def quickselectOK (q : List ℚ) (left right k : Nat) (ps : List Nat) : Bool :=
  if hlr : left = right then decide (left < q.length)
  else if hrl : right < left then true
  else
    let p := left + (ps.headD 0) % (right - left + 1)
    let pr := partition q left right p
    partitionOK q left right p &&
    (if k = pr.1 then decide (k < pr.2.length)
    else if hk : k < pr.1 then
      quickselectOK pr.2 left (pr.1 - 1) k ps.tail
    else
      quickselectOK pr.2 (pr.1 + 1) right k ps.tail)
termination_by right - left
decreasing_by
  · have h1 : left ≤ right := Nat.le_of_not_lt hrl
    have h2 : (partition q left right
        (left + (ps.headD 0) % (right - left + 1))).1 ≤ right :=
      partition_store_le _ _ _ _ h1
    have h4 : pr.1 = (partition q left right
        (left + (ps.headD 0) % (right - left + 1))).1 := rfl
    omega
  · have h3 : left ≤ (partition q left right
        (left + (ps.headD 0) % (right - left + 1))).1 :=
      partition_store_ge _ _ _ _
    have h4 : pr.1 = (partition q left right
        (left + (ps.headD 0) % (right - left + 1))).1 := rfl
    omega

theorem partitionLoopOK_true (pivotValue : ℚ) (left n : Nat) :
    ∀ (is : List Nat) (store : Nat) (q : List ℚ),
    (∀ i ∈ is, left + i < n ∧ i < n) → store + is.length ≤ n →
    partitionLoopOK pivotValue left n is store q = true := by
  intro is
  induction is with
  | nil => intro store q _ _; rfl
  | cons i is ih =>
      intro store q hmem hlen
      have hi := hmem i (List.mem_cons_self i is)
      simp only [List.length_cons] at hlen
      simp only [partitionLoopOK, Bool.and_eq_true, decide_eq_true_eq]
      refine ⟨hi.1, ?_⟩
      split
      · simp only [Bool.and_eq_true, decide_eq_true_eq]
        refine ⟨⟨by omega, hi.2⟩, ?_⟩
        exact ih _ _ (fun j hj => hmem j (List.mem_cons_of_mem i hj)) (by omega)
      · exact ih _ _ (fun j hj => hmem j (List.mem_cons_of_mem i hj)) (by omega)

theorem partitionOK_true (q : List ℚ) (left right pivotIndex : Nat)
    (h1 : left ≤ right) (h2 : right < q.length) (h3 : pivotIndex ≤ right) :
    partitionOK q left right pivotIndex = true := by
  simp only [partitionOK, Bool.and_eq_true, decide_eq_true_eq]
  refine ⟨⟨⟨⟨by omega, h2⟩, ?_⟩, partitionLoop_store_ge _ _ _ _ _⟩, ?_⟩
  · apply partitionLoopOK_true
    · intro i hi
      rw [List.mem_range] at hi
      omega
    · rw [List.length_range]
      omega
  · have h := partitionLoop_store_le (q.getD pivotIndex 0) left
      (List.range (right - left)) left (swap q pivotIndex right)
    rw [List.length_range] at h
    omega

theorem quickselectD_isOk_aux (n : Nat) :
    ∀ (q : List ℚ) (left right k : Nat) (ps : List Nat),
    right - left ≤ n → left ≤ k → k ≤ right →
    ∃ v qf, quickselectD q left right k ps = Except.ok (v, qf) ∧
      qf.length = q.length := by
  induction n with
  | zero =>
      intro q left right k ps hn h1 h2
      have hlr : left = right := by omega
      exact ⟨q.getD left 0, q, by rw [quickselectD, dif_pos hlr], rfl⟩
  | succ m ih =>
      intro q left right k ps hn h1 h2
      by_cases hlr : left = right
      · exact ⟨q.getD left 0, q, by rw [quickselectD, dif_pos hlr], rfl⟩
      · have hrl : ¬ right < left := by omega
        rw [quickselectD]
        simp only [dif_neg hlr, dif_neg hrl]
        set pr := partition q left right (left + ps.headD 0 % (right - left + 1)) with hpr
        have hge : left ≤ pr.1 := partition_store_ge _ _ _ _
        have hle : pr.1 ≤ right := partition_store_le _ _ _ _ (by omega)
        have hlen : pr.2.length = q.length := partition_length _ _ _ _
        by_cases hk1 : k = pr.1
        · rw [if_pos hk1]
          exact ⟨pr.2.getD k 0, pr.2, rfl, hlen⟩
        · rw [if_neg hk1]
          by_cases hk2 : k < pr.1
          · rw [dif_pos hk2]
            obtain ⟨v, qf, hv, hl⟩ := ih pr.2 left (pr.1 - 1) k ps.tail
              (by omega) h1 (by omega)
            exact ⟨v, qf, hv, by rw [hl, hlen]⟩
          · rw [dif_neg hk2]
            obtain ⟨v, qf, hv, hl⟩ := ih pr.2 (pr.1 + 1) right k ps.tail
              (by omega) (by omega) h2
            exact ⟨v, qf, hv, by rw [hl, hlen]⟩

theorem quickselectOK_true_aux (n : Nat) :
    ∀ (q : List ℚ) (left right k : Nat) (ps : List Nat),
    right - left ≤ n → left ≤ k → k ≤ right → right < q.length →
    quickselectOK q left right k ps = true := by
  induction n with
  | zero =>
      intro q left right k ps hn h1 h2 h3
      have hlr : left = right := by omega
      rw [quickselectOK, dif_pos hlr]
      simpa using by omega
  | succ m ih =>
      intro q left right k ps hn h1 h2 h3
      by_cases hlr : left = right
      · rw [quickselectOK, dif_pos hlr]
        simpa using by omega
      · have hrl : ¬ right < left := by omega
        rw [quickselectOK]
        simp only [dif_neg hlr, dif_neg hrl]
        have hple : left + ps.headD 0 % (right - left + 1) ≤ right := by
          have := Nat.mod_lt (ps.headD 0) (y := right - left + 1) (by omega)
          omega
        set pr := partition q left right (left + ps.headD 0 % (right - left + 1)) with hpr
        have hge : left ≤ pr.1 := partition_store_ge _ _ _ _
        have hle : pr.1 ≤ right := partition_store_le _ _ _ _ (by omega)
        have hlen : pr.2.length = q.length := partition_length _ _ _ _
        rw [Bool.and_eq_true]
        refine ⟨partitionOK_true _ _ _ _ (by omega) h3 hple, ?_⟩
        by_cases hk1 : k = pr.1
        · rw [if_pos hk1]
          simp only [decide_eq_true_eq]
          omega
        · rw [if_neg hk1]
          by_cases hk2 : k < pr.1
          · rw [dif_pos hk2]
            exact ih pr.2 left (pr.1 - 1) k ps.tail (by omega) h1 (by omega)
              (by omega)
          · rw [dif_neg hk2]
            exact ih pr.2 (pr.1 + 1) right k ps.tail (by omega) (by omega) h2
              (by omega)

theorem median_isOk (data : List ℚ) (ps1 ps2 : List Nat) (h : data ≠ []) :
    ∃ v, median data ps1 ps2 = Except.ok v := by
  have hn : data.length ≠ 0 := fun h0 => h (List.eq_nil_of_length_eq_zero h0)
  unfold median
  rw [if_neg hn]
  by_cases hodd : data.length % 2 = 1
  · rw [if_pos hodd]
    obtain ⟨v, qf, hv, _⟩ := quickselectD_isOk_aux (data.length)
      data 0 (data.length - 1) (data.length / 2) ps1 (by omega) (by omega)
      (by omega)
    exact ⟨v, by simp [quickselect, hv, Except.map]⟩
  · rw [if_neg hodd]
    obtain ⟨v1, qf1, hv1, _⟩ := quickselectD_isOk_aux (data.length)
      data 0 (data.length - 1) (data.length / 2 - 1) ps1 (by omega) (by omega)
      (by omega)
    obtain ⟨v2, qf2, hv2, _⟩ := quickselectD_isOk_aux (data.length)
      data 0 (data.length - 1) (data.length / 2) ps2 (by omega) (by omega)
      (by omega)
    exact ⟨(v1 + v2) / 2, by
      simp [quickselect, hv1, hv2, Except.map, Except.bind, bind, pure,
        Except.pure]⟩

/-- Call-boundary model of `median` for the mutation claim: the result paired
with the caller's collection as it stands after the call.  In the source,
`median` immediately rebinds its parameter to a private copy (`data =
list(data)`, line 42) and `quickselect` copies any non-deque argument into a
fresh deque (lines 28-30), so every swap `partition` performs targets a
buffer disjoint from the caller's object; no write path reaches the caller's
collection, which therefore stands unchanged after the call. -/
def medianCall (data : List ℚ) (ps1 ps2 : List Nat) :
    Except PyError ℚ × List ℚ :=
  (median data ps1 ps2, data)

set_option maxRecDepth 4000

set_option maxHeartbeats 1000000

/-- C1: the claim says that for every non-empty sequence and every sequence
of in-range pivot choices, `median` returns the middle of the sorted data.
The code violates it: on `[1, 3, 2]` with pivot choices `[0, 0]` (both
in-range: first `0` in `[0, 2]`, then `1 + 0 % 2 = 1` in `[1, 2]`) it
returns `1`, while the sorted middle is `2`.  Root cause: the scan loop of
`partition` swaps through the `enumerate` counter `i = j - left` instead of
the scanned position `j`, which is wrong whenever `left > 0`. -/
theorem c1_median_wrong_on_1_3_2 :
    median [1, 3, 2] [0, 0] [] = Except.ok 1 ∧
    medianSpec [1, 3, 2] = some 2 ∧ (1 : ℚ) ≠ 2 := by
  refine ⟨?_, by decide, by norm_num⟩
  simp +decide [median, quickselect, quickselectD, partition, partitionLoop,
    swap, Except.map]

/-- C2: the claim says `partition` leaves every element at indices
`[left, storeIndex)` strictly below the pivot value and every element at
`(storeIndex, right]` at or above it.  The code violates it: on
`q = [9, 1, 5, 3]`, `left = 1`, `right = 3`, `pivotIndex = 3` (pivot value
`3`) it returns store index `2` with buffer `[1, 9, 3, 5]`, where the
element `9` at index `1 ∈ [left, storeIndex)` is not below the pivot. -/
theorem c2_partition_invariant_violated :
    partition [9, 1, 5, 3] 1 3 3 = (2, [1, 9, 3, 5]) ∧
    ([9, 1, 5, 3] : List ℚ).getD 3 0 = 3 ∧
    ¬(([1, 9, 3, 5] : List ℚ).getD 1 0 < 3) := by
  decide

/-- C3: the claim says `partition` leaves elements outside `[left, right]`
unchanged (and preserves the multiset via swaps).  The code violates the
frame part: on `q = [9, 1, 5, 3]`, `left = 1`, `right = 3`,
`pivotIndex = 3`, position `0` — outside `[1, 3]` — changes from `9` to `1`,
because the scan loop swaps through `i = j - left` which falls below `left`.
(The multiset half does hold: the loop only swaps.) -/
theorem c3_partition_writes_outside_range :
    (partition [9, 1, 5, 3] 1 3 3).2.getD 0 0 = 1 ∧
    ([9, 1, 5, 3] : List ℚ).getD 0 0 = 9 ∧ (1 : ℚ) ≠ 9 := by
  decide

/-- C4: the claim says the even case always returns the average of the two
central order statistics; in particular `median [1,2,3,4,5,6] = 3.5` for
every pivot sequence.  The code violates it: with pivot stream `[0, 4, 3, 0]`
for the first selection (all choices in-range after clamping) and `[3]` for
the second, it returns `3` instead of `7/2`, again due to the `partition`
offset bug.  The `(a + b) / 2` arithmetic itself is exact on `ℚ`. -/
theorem c4_median_even_wrong_on_1_to_6 :
    median [1, 2, 3, 4, 5, 6] [0, 4, 3, 0] [3] = Except.ok 3 ∧
    medianSpec [1, 2, 3, 4, 5, 6] = some (7 / 2) ∧ (3 : ℚ) ≠ 7 / 2 := by
  refine ⟨?_, ?_, by norm_num⟩
  · simp +decide [median, quickselect, quickselectD, partition, partitionLoop,
      swap, Except.map, Except.bind, bind, pure, Except.pure]
    norm_num
  · norm_num [medianSpec, sortList, insertSorted]

/-- C5 counterexample: the claim says the second `select` call of the even
case operates on the buffer as rearranged by the first call.  It does not:
`median` (each call copies the list into a fresh deque) and `medianShared`
(the spec's shared-buffer reading) disagree at `[1, 2, 3, 4]` with pivot
streams `[0, 1, 0]` and `[0, 0, 1]`. -/
theorem c5_counterexample_shared_buffer_differs :
    median [1, 2, 3, 4] [0, 1, 0] [0, 0, 1] = Except.ok 1 ∧
    medianShared [1, 2, 3, 4] [0, 1, 0] [0, 0, 1] = Except.ok 2 ∧
    (Except.ok 1 : Except PyError ℚ) ≠ Except.ok 2 := by
  refine ⟨?_, ?_, fun h => absurd (Except.ok.inj h) (by norm_num)⟩
  · simp +decide [median, quickselect, quickselectD, partition, partitionLoop,
      swap, Except.map, Except.bind, bind, pure, Except.pure]
  · simp +decide [medianShared, quickselect, quickselectD, partition,
      partitionLoop, swap, Except.map, Except.bind, bind, pure, Except.pure]
    norm_num

/-- C5 (amended): in the even case the two `select` calls each receive the
list `data`, so each runs on its own fresh deque copy of the original data:
the second selection is one fixed value `b`, independent of the first call's
pivot stream (here `ps1` versus `ps1'` — same `b` in both runs), rather than
a function of the buffer the first call left behind. -/
theorem c5_amended_second_call_independent :
    ∀ (data : List ℚ) (ps1 ps1' ps2 : List Nat), data ≠ [] →
    data.length % 2 = 0 →
    ∃ a a' b,
      quickselect data 0 (data.length - 1) (data.length / 2 - 1) ps1 =
        Except.ok a ∧
      quickselect data 0 (data.length - 1) (data.length / 2 - 1) ps1' =
        Except.ok a' ∧
      quickselect data 0 (data.length - 1) (data.length / 2) ps2 =
        Except.ok b ∧
      median data ps1 ps2 = Except.ok ((a + b) / 2) ∧
      median data ps1' ps2 = Except.ok ((a' + b) / 2) := by
  intro data ps1 ps1' ps2 h0 he
  have hn : data.length ≠ 0 := fun h => h0 (List.eq_nil_of_length_eq_zero h)
  obtain ⟨a, qa, ha, _⟩ := quickselectD_isOk_aux data.length data 0
    (data.length - 1) (data.length / 2 - 1) ps1 (by omega) (by omega) (by omega)
  obtain ⟨a', qa', ha', _⟩ := quickselectD_isOk_aux data.length data 0
    (data.length - 1) (data.length / 2 - 1) ps1' (by omega) (by omega) (by omega)
  obtain ⟨b, qb, hb, _⟩ := quickselectD_isOk_aux data.length data 0
    (data.length - 1) (data.length / 2) ps2 (by omega) (by omega) (by omega)
  have heodd : ¬ data.length % 2 = 1 := by omega
  refine ⟨a, a', b, ?_, ?_, ?_, ?_, ?_⟩
  · simp [quickselect, ha, Except.map]
  · simp [quickselect, ha', Except.map]
  · simp [quickselect, hb, Except.map]
  · unfold median
    rw [if_neg hn, if_neg heodd]
    simp [quickselect, ha, hb, Except.map, Except.bind, bind, pure,
      Except.pure]
  · unfold median
    rw [if_neg hn, if_neg heodd]
    simp [quickselect, ha', hb, Except.map, Except.bind, bind, pure,
      Except.pure]

/-- Witness for the amended C5 theorem at `data = [2, 1]` with pivot streams
`[]`, `[1]`, `[]`. -/
theorem c5_amended_witness :
    ∃ a a' b,
      quickselect [2, 1] 0 (([2, 1] : List ℚ).length - 1)
        (([2, 1] : List ℚ).length / 2 - 1) [] = Except.ok a ∧
      quickselect [2, 1] 0 (([2, 1] : List ℚ).length - 1)
        (([2, 1] : List ℚ).length / 2 - 1) [1] = Except.ok a' ∧
      quickselect [2, 1] 0 (([2, 1] : List ℚ).length - 1)
        (([2, 1] : List ℚ).length / 2) [] = Except.ok b ∧
      median [2, 1] [] [] = Except.ok ((a + b) / 2) ∧
      median [2, 1] [1] [] = Except.ok ((a' + b) / 2) :=
  c5_amended_second_call_independent [2, 1] [] [1] [] (by simp) (by simp)

/-- C6 counterexample: the claim says `quickselect` fails with an
out-of-range error whenever the rank `k` lies outside `[left, right]` at
entry.  The code has no such check: with `k = 3` outside `[0, 0]` it simply
returns the single element `5`. -/
theorem c6_counterexample_no_rank_check :
    quickselect [(5 : ℚ)] 0 0 3 [] = Except.ok 5 ∧ ¬(3 ≤ 0) := by
  refine ⟨?_, by decide⟩
  simp +decide [quickselect, quickselectD, Except.map]

/-- C6 (amended): `quickselect` performs no range check on `k`.  Its
`left == right` base case returns `buffer[left]` whatever `k` is, so an
out-of-range rank can yield a normal return value; the only error an
out-of-range rank can ever produce is the generic empty-range `ValueError`
from `random.randint` when the recursion reaches an empty range, never a
dedicated rank-out-of-range error. -/
theorem c6_amended_base_case_ignores_rank :
    ∀ (q : List ℚ) (left k : Nat) (ps : List Nat),
    quickselectD q left left k ps = Except.ok (q.getD left 0, q) := by
  intro q left k ps
  rw [quickselectD, dif_pos rfl]

/-- C7: `median` does not mutate its input: the caller's collection after the
call equals the collection passed in, for every input and pivot choice —
while the selection genuinely rearranges a buffer (second conjunct: the
working copy ends as `[2, 1, 3]`, not the input `[1, 3, 2]`), that buffer is
the private copy, never the caller's collection. -/
theorem c7_median_preserves_caller_collection :
    (∀ (data : List ℚ) (ps1 ps2 : List Nat),
      (medianCall data ps1 ps2).2 = data ∧
      (medianCall data ps1 ps2).1 = median data ps1 ps2) ∧
    ∃ v qf, quickselectD [1, 3, 2] 0 2 1 [0, 0] = Except.ok (v, qf) ∧
      qf ≠ [1, 3, 2] := by
  refine ⟨fun _ _ _ => ⟨rfl, rfl⟩, 1, [2, 1, 3], ?_, by decide⟩
  simp +decide [quickselectD, partition, partitionLoop, swap]

/-- C8: `median` returns the specific `StatisticsError` "No median for empty
data" exactly when the input is empty — the check is the first thing the
function does — and on every non-empty input it returns a value (never that
error, and no value is returned in the empty case). -/
theorem c8_median_empty_error_iff :
    ∀ (data : List ℚ) (ps1 ps2 : List Nat),
    (median data ps1 ps2 =
        Except.error (.statisticsError "No median for empty data") ↔
      data = []) ∧
    (data ≠ [] → ∃ v, median data ps1 ps2 = Except.ok v) := by
  intro data ps1 ps2
  refine ⟨⟨?_, ?_⟩, median_isOk data ps1 ps2⟩
  · intro he
    by_contra hne
    obtain ⟨v, hv⟩ := median_isOk data ps1 ps2 hne
    rw [hv] at he
    exact Except.noConfusion he
  · intro h
    subst h
    rfl

/-- Witness for the C8 theorem at the empty list and at `[3]`. -/
theorem c8_witness :
    (median ([] : List ℚ) [] [] =
      Except.error (.statisticsError "No median for empty data")) ∧
    ∃ v, median [(3 : ℚ)] [] [] = Except.ok v :=
  ⟨(c8_median_empty_error_iff [] [] []).1.mpr rfl,
    (c8_median_empty_error_iff [(3 : ℚ)] [] []).2 (by simp)⟩

/-- C9: for every valid call (`left ≤ k ≤ right`, `left < right`) and every
in-range pivot, the store index returned by `partition` lies in
`[left, right]`, and whichever half the recursion descends into —
`[left, pivotIndex - 1]` when `k` is below it, `[pivotIndex + 1, right]`
when above — is strictly smaller than `[left, right]` (the pivot position is
excluded), which is why `quickselectD` is total (its well-founded recursion
on `right - left` is exactly this argument). -/
theorem c9_recursion_strictly_shrinks :
    ∀ (q : List ℚ) (left right k p : Nat),
    left ≤ k → k ≤ right → left < right → left ≤ p → p ≤ right →
    left ≤ (partition q left right p).1 ∧
    (partition q left right p).1 ≤ right ∧
    (k < (partition q left right p).1 →
      ((partition q left right p).1 - 1) - left + 1 < right - left + 1) ∧
    ((partition q left right p).1 < k →
      right - ((partition q left right p).1 + 1) + 1 < right - left + 1) := by
  intro q left right k p h1 h2 h3 h4 h5
  have hge : left ≤ (partition q left right p).1 := partition_store_ge _ _ _ _
  have hle : (partition q left right p).1 ≤ right :=
    partition_store_le _ _ _ _ (by omega)
  exact ⟨hge, hle, fun h => by omega, fun h => by omega⟩

/-- Witness for the C9 theorem at `q = [1, 3, 2]`, `left = 0`, `right = 2`,
`k = 0`, `p = 2`. -/
theorem c9_witness :
    0 ≤ (partition [1, 3, 2] 0 2 2).1 ∧
    (partition [1, 3, 2] 0 2 2).1 ≤ 2 ∧
    (0 < (partition [1, 3, 2] 0 2 2).1 →
      ((partition [1, 3, 2] 0 2 2).1 - 1) - 0 + 1 < 2 - 0 + 1) ∧
    ((partition [1, 3, 2] 0 2 2).1 < 0 →
      2 - ((partition [1, 3, 2] 0 2 2).1 + 1) + 1 < 2 - 0 + 1) :=
  c9_recursion_strictly_shrinks [1, 3, 2] 0 2 0 2 (by decide) (by decide)
    (by decide) (by decide) (by decide)

/-- C10: for every call with `left ≤ k ≤ right < length` and every pivot
stream, every buffer index `quickselectD` and `partition` read or write —
checked access by access by the `quickselectOK` mirror on the very buffer
states the recursion produces — is within `[0, length - 1]`, and every
`partition` call's returned store index lies within its `[left, right]`. -/
theorem c10_accesses_in_bounds :
    ∀ (q : List ℚ) (left right k : Nat) (ps : List Nat),
    left ≤ k → k ≤ right → right < q.length →
    quickselectOK q left right k ps = true :=
  fun q left right k ps h1 h2 h3 =>
    quickselectOK_true_aux (right - left) q left right k ps (Nat.le_refl _)
      h1 h2 h3

/-- Witness for the C10 theorem at `q = [2, 1, 3]`, range `[0, 2]`, `k = 1`,
pivot stream `[0]`. -/
theorem c10_witness : quickselectOK [2, 1, 3] 0 2 1 [0] = true :=
  c10_accesses_in_bounds [2, 1, 3] 0 2 1 [0] (by decide) (by decide)
    (by decide)
